import Mathlib

/-!
Shallow embedding of the IronBee ParserSuite grammars
(src/modules/parser_suite.cpp), which parse HTTP-like request and
response lines, header blocks, URIs, authority components, and paths
over a zero-copy span abstraction, using Boost.Spirit Qi semantics:
PEG-style ordered alternatives that rewind the input position on
failure but never roll back semantic actions that already fired.

The buffer is a list of characters; a span is a half-open index range
into it.  Every grammar is modelled as a total function from the
buffer and the caller's input span to the post-call input span
together with a parse outcome: success carrying the result structure,
clean failure (the C++ code throws a ParseFailure exception), or
undefined behavior (the C++ code indexes `back()` of an empty vector).
Iteration uses explicit fuel bounded by the span length so that every
definition evaluates by `rfl`/`decide`.
-/

namespace ParserSuite

/-- A zero-copy span: the half-open index range [b, e) of the underlying buffer. -/
structure Span where
  b : Nat
  e : Nat
deriving Repr, DecidableEq

/-- The externally owned byte buffer, modelled as a list of characters. -/
abbrev Buf := List Char

/-- A span is empty when it references no bytes; grammars use empty spans for absent fields. -/
def Span.isEmpty (sp : Span) : Bool := sp.b == sp.e

/-- The bytes a span references. -/
def extract (s : Buf) (sp : Span) : List Char := (s.take sp.e).drop sp.b

/-- Outcome of one parse call: success, clean grammar failure (the C++ code throws a
structured ParseFailure), or C++ undefined behavior reached inside a semantic action. -/
inductive POut (α : Type) where
  | ok : α → POut α
  | fail : POut α
  | ub : POut α
deriving Repr, DecidableEq

/-- True iff position i is strictly inside the input limit e and the buffer holds c there. -/
def atCh (s : Buf) (e i : Nat) (c : Char) : Bool :=
  decide (i < e) && (s[i]? == some c)

/-- Fuel-indexed longest run from i of characters satisfying p, bounded by the limit e. -/
def runWhileF (s : Buf) (e : Nat) (p : Char → Bool) : Nat → Nat → Nat
  | 0, i => i
  | fuel+1, i =>
    if i < e then
      match s[i]? with
      | some c => if p c then runWhileF s e p fuel (i+1) else i
      | none => i
    else i

/-- End position of the longest run from i of characters satisfying p, bounded by e. -/
def runWhile (s : Buf) (e : Nat) (p : Char → Bool) (i : Nat) : Nat :=
  runWhileF s e p (e - i) i

/-- qi::eol — matches CRLF, lone CR, or lone LF; returns the position just after. -/
def eolAt (s : Buf) (e i : Nat) : Option Nat :=
  if atCh s e i '\r' then
    if atCh s e (i+1) '\n' then some (i+2) else some (i+1)
  else if atCh s e i '\n' then some (i+1)
  else none

/-- qi (eol|eoi) at position i: an end-of-line sequence, or the end of the input span. -/
def eolOrEoi (s : Buf) (e i : Nat) : Option Nat :=
  match eolAt s e i with
  | some j => some j
  | none => if i == e then some i else none

/-- Horizontal whitespace, the `sp` parser of the source: space or tab. -/
def spChar (c : Char) : Bool := c == ' ' || c == '\t'

/-- CR or LF. -/
def eolChar (c : Char) : Bool := c == '\r' || c == '\n'

/-- Character of a `word`: anything but space, tab, CR, LF. -/
def wordChar (c : Char) : Bool := !(spChar c || eolChar c)

/-- Character of a header key: anything but space, tab, colon, CR, LF. -/
def keyChar (c : Char) : Bool := !(spChar c || c == ':' || eolChar c)

/-- Character of a header value: anything but CR, LF. -/
def valueChar (c : Char) : Bool := !(eolChar c)

/-! ## Header block -/

/-- One header entry: a key span and the ordered value spans accumulated under it. -/
structure parse_headers_header_t where
  key : Span
  value : List Span
deriving Repr, DecidableEq

/-- Result of parse_headers: ordered entries plus the explicit-terminator flag. -/
structure parse_headers_result_t where
  headers : List parse_headers_header_t
  terminated : Bool
deriving Repr, DecidableEq

/-- Append a value span to the value list of the final entry (no-op on an empty list). -/
def appendToLast (hs : List parse_headers_header_t) (v : Span) :
    List parse_headers_header_t :=
  match hs with
  | [] => []
  | [h] => [⟨h.key, h.value ++ [v]⟩]
  | h :: t => h :: appendToLast t v

/-- The push_value semantic action, `R.headers.back().value.push_back(value)`:
C++ undefined behavior when the entry list is still empty. -/
def push_value (hs : List parse_headers_header_t) (v : Span) :
    POut (List parse_headers_header_t) :=
  match hs with
  | [] => .ub
  | _ => .ok (appendToLast hs v)

/-- Second alternative of the header rule: a folded continuation line,
`+char_(" \t") >> value[push_value] >> (eol|eoi)`. -/
def contLine (s : Buf) (e : Nat) (hs : List parse_headers_header_t) (i : Nat) :
    List parse_headers_header_t × POut Nat :=
  let wEnd := runWhile s e spChar i
  if i < wEnd then
    let vEnd := runWhile s e valueChar wEnd
    if wEnd < vEnd then
      match push_value hs ⟨wEnd, vEnd⟩ with
      | .ok hs2 =>
        (match eolOrEoi s e vEnd with
         | some j => (hs2, .ok j)
         | none => (hs2, .fail))
      | _ => (hs, .ub)
    else (hs, .fail)
  else (hs, .fail)

/-- One header line: the keyed alternative
`key[new_header] >> *sp >> value[push_value] >> (eol|eoi)` tried first, the continuation
alternative second.  Qi rewinds the position between alternatives, but semantic actions
that already fired (new_header, push_value) persist into the second alternative. -/
def headerLine (s : Buf) (e : Nat) (hs : List parse_headers_header_t) (i : Nat) :
    List parse_headers_header_t × POut Nat :=
  let kEnd := runWhile s e keyChar i
  if atCh s e kEnd ':' then
    let hs1 := hs ++ [⟨⟨i, kEnd⟩, []⟩]
    let spEnd := runWhile s e spChar (kEnd+1)
    let vEnd := runWhile s e valueChar spEnd
    if spEnd < vEnd then
      match push_value hs1 ⟨spEnd, vEnd⟩ with
      | .ok hs2 =>
        (match eolOrEoi s e vEnd with
         | some j => (hs2, .ok j)
         | none => contLine s e hs2 i)
      | _ => (hs1, .ub)
    else contLine s e hs1 i
  else contLine s e hs i

/-- Kleene iteration of further header lines after the first mandatory one. -/
def headersLoop (s : Buf) (e : Nat) :
    Nat → List parse_headers_header_t → Nat →
      List parse_headers_header_t × Nat × Bool
  | 0, hs, i => (hs, i, false)
  | fuel+1, hs, i =>
    match headerLine s e hs i with
    | (hs2, .ok j) => headersLoop s e fuel hs2 j
    | (hs2, .fail) => (hs2, i, false)
    | (hs2, .ub) => (hs2, i, true)

/-- The header-block grammar `+header >> -(*sp >> eol)[terminated := true]`,
returning the result structure and the position reached on success. -/
def parse_headers_run (s : Buf) (inp : Span) : POut (parse_headers_result_t × Nat) :=
  match headerLine s inp.e [] inp.b with
  | (_, .fail) => .fail
  | (_, .ub) => .ub
  | (hs1, .ok j1) =>
    match headersLoop s inp.e (inp.e + 1 - j1) hs1 j1 with
    | (_, _, true) => .ub
    | (hs, i, false) =>
      let spEnd := runWhile s inp.e spChar i
      match eolAt s inp.e spEnd with
      | some j => .ok (⟨hs, true⟩, j)
      | none => .ok (⟨hs, false⟩, i)

/-- parse_headers: reassigns the caller's input span past the consumed prefix only on
success; on failure the exception is thrown before the span is reassigned. -/
def parse_headers_call (s : Buf) (input : Span) :
    Span × POut parse_headers_result_t :=
  match parse_headers_run s input with
  | .ok (R, j) => (⟨j, input.e⟩, .ok R)
  | .fail => (input, .fail)
  | .ub => (input, .ub)

/-! ## Request line and response line -/

/-- Result of parse_request_line. -/
structure parse_request_line_result_t where
  method : Span
  uri : Span
  version : Span
deriving Repr, DecidableEq

/-- Request-line grammar:
`omit[*sp] >> word >> omit[*sp] >> word >> omit[*sp] >> -word >> omit[eol|eoi]`. -/
def parse_request_line_run (s : Buf) (inp : Span) :
    Option (parse_request_line_result_t × Nat) :=
  let e := inp.e
  let i0 := runWhile s e spChar inp.b
  let mEnd := runWhile s e wordChar i0
  if i0 < mEnd then
    let i1 := runWhile s e spChar mEnd
    let uEnd := runWhile s e wordChar i1
    if i1 < uEnd then
      let i2 := runWhile s e spChar uEnd
      let vEnd := runWhile s e wordChar i2
      let ver : Span := if i2 < vEnd then ⟨i2, vEnd⟩ else ⟨0, 0⟩
      let p := if i2 < vEnd then vEnd else i2
      match eolOrEoi s e p with
      | some j => some (⟨⟨i0, mEnd⟩, ⟨i1, uEnd⟩, ver⟩, j)
      | none => none
    else none
  else none

/-- parse_request_line via parse_direct: span reassigned only on success. -/
def parse_request_line_call (s : Buf) (input : Span) :
    Span × POut parse_request_line_result_t :=
  match parse_request_line_run s input with
  | some (R, j) => (⟨j, input.e⟩, .ok R)
  | none => (input, .fail)

/-- Result of parse_response_line. -/
structure parse_response_line_result_t where
  version : Span
  status : Span
  message : Span
deriving Repr, DecidableEq

/-- Response-line grammar: two mandatory words, then a message run of non-CR/LF bytes. -/
def parse_response_line_run (s : Buf) (inp : Span) :
    Option (parse_response_line_result_t × Nat) :=
  let e := inp.e
  let i0 := runWhile s e spChar inp.b
  let vEnd := runWhile s e wordChar i0
  if i0 < vEnd then
    let i1 := runWhile s e spChar vEnd
    let stEnd := runWhile s e wordChar i1
    if i1 < stEnd then
      let i2 := runWhile s e spChar stEnd
      let mEnd := runWhile s e valueChar i2
      match eolOrEoi s e mEnd with
      | some j => some (⟨⟨i0, vEnd⟩, ⟨i1, stEnd⟩, ⟨i2, mEnd⟩⟩, j)
      | none => none
    else none
  else none

/-- parse_response_line via parse_direct: span reassigned only on success. -/
def parse_response_line_call (s : Buf) (input : Span) :
    Span × POut parse_response_line_result_t :=
  match parse_response_line_run s input with
  | some (R, j) => (⟨j, input.e⟩, .ok R)
  | none => (input, .fail)

/-! ## URI -/

/-- Result of parse_uri. -/
structure parse_uri_result_t where
  scheme : Span
  authority : Span
  path : Span
  query : Span
  fragment : Span
deriving Repr, DecidableEq

/-- Scheme characters: `char_("-A-Za-z0-9+.")`. -/
def schemeChar (c : Char) : Bool :=
  c == '-' || (('A' ≤ c && c ≤ 'Z') || ('a' ≤ c && c ≤ 'z')) ||
    ('0' ≤ c && c ≤ '9') || c == '+' || c == '.'

/-- Authority characters: anything but space, tab, slash, question mark, hash, CR, LF. -/
def uriAuthChar (c : Char) : Bool :=
  !(spChar c || c == '/' || c == '?' || c == '#' || eolChar c)

/-- Path characters: anything but space, tab, question mark, hash, CR, LF. -/
def uriPathChar (c : Char) : Bool :=
  !(spChar c || c == '?' || c == '#' || eolChar c)

/-- Query characters: the source excludes the set "  #\r\n" (space written twice). -/
def uriQueryChar (c : Char) : Bool :=
  !(c == ' ' || c == '#' || eolChar c)

/-- Fragment characters: anything but space, CR, LF. -/
def uriFragChar (c : Char) : Bool :=
  !(c == ' ' || eolChar c)

/-- URI grammar: optional scheme (run + colon), optional `//`-introduced authority,
path run, optional query, optional fragment, then a mandatory eol-or-eoi. -/
def parse_uri_run (s : Buf) (inp : Span) : Option (parse_uri_result_t × Nat) :=
  let e := inp.e
  let schEnd := runWhile s e schemeChar inp.b
  let hasScheme := decide (inp.b < schEnd) && atCh s e schEnd ':'
  let scheme : Span := if hasScheme then ⟨inp.b, schEnd⟩ else ⟨0, 0⟩
  let p1 := if hasScheme then schEnd + 1 else inp.b
  let hasAuth := atCh s e p1 '/' && atCh s e (p1+1) '/'
  let aEnd := runWhile s e uriAuthChar (p1+2)
  let authority : Span := if hasAuth then ⟨p1+2, aEnd⟩ else ⟨0, 0⟩
  let p2 := if hasAuth then aEnd else p1
  let pEnd := runWhile s e uriPathChar p2
  let path : Span := ⟨p2, pEnd⟩
  let hasQ := atCh s e pEnd '?'
  let qEnd := runWhile s e uriQueryChar (pEnd+1)
  let query : Span := if hasQ then ⟨pEnd+1, qEnd⟩ else ⟨0, 0⟩
  let p3 := if hasQ then qEnd else pEnd
  let hasFr := atCh s e p3 '#'
  let fEnd := runWhile s e uriFragChar (p3+1)
  let fragment : Span := if hasFr then ⟨p3+1, fEnd⟩ else ⟨0, 0⟩
  let p4 := if hasFr then fEnd else p3
  match eolOrEoi s e p4 with
  | some j => some (⟨scheme, authority, path, query, fragment⟩, j)
  | none => none

/-- parse_uri: span reassigned only on success. -/
def parse_uri_call (s : Buf) (input : Span) : Span × POut parse_uri_result_t :=
  match parse_uri_run s input with
  | some (R, j) => (⟨j, input.e⟩, .ok R)
  | none => (input, .fail)

/-! ## Authority -/

/-- Result of parse_authority. -/
structure parse_authority_result_t where
  username : Span
  password : Span
  host : Span
  port : Span
deriving Repr, DecidableEq

/-- Authority word characters: anything but at-sign, colon, space, tab, CR, LF. -/
def authChar (c : Char) : Bool :=
  !(c == '@' || c == ':' || spChar c || eolChar c)

/-- Authority grammar.  The userinfo branch fires set_username/set_password as it goes;
when the mandatory at-sign is missing the branch fails and the host-only alternative's
only_host action resets the whole result before assigning host.  An optional port
follows either branch.  The grammar as a whole cannot fail (every piece is optional
or a star). -/
def parse_authority_run (s : Buf) (inp : Span) : parse_authority_result_t × Nat :=
  let e := inp.e
  let uEnd := runWhile s e authChar inp.b
  let hasPw := atCh s e uEnd ':'
  let pwEnd := runWhile s e authChar (uEnd+1)
  let p1 := if hasPw then pwEnd else uEnd
  let R1 : parse_authority_result_t :=
    if hasPw then ⟨⟨inp.b, uEnd⟩, ⟨uEnd+1, pwEnd⟩, ⟨0, 0⟩, ⟨0, 0⟩⟩
    else ⟨⟨inp.b, uEnd⟩, ⟨0, 0⟩, ⟨0, 0⟩, ⟨0, 0⟩⟩
  let branch1 := atCh s e p1 '@'
  let hEnd1 := runWhile s e authChar (p1+1)
  let hEnd2 := runWhile s e authChar inp.b
  let R2 : parse_authority_result_t :=
    if branch1 then { R1 with host := ⟨p1+1, hEnd1⟩ }
    else ⟨⟨0, 0⟩, ⟨0, 0⟩, ⟨inp.b, hEnd2⟩, ⟨0, 0⟩⟩
  let p2 := if branch1 then hEnd1 else hEnd2
  let hasPort := atCh s e p2 ':'
  let prEnd := runWhile s e authChar (p2+1)
  let R3 := if hasPort then { R2 with port := ⟨p2+1, prEnd⟩ } else R2
  let p3 := if hasPort then prEnd else p2
  (R3, p3)

/-- parse_authority via parse_indirect: the grammar always succeeds, so the span is
always advanced and a result always returned. -/
def parse_authority_call (s : Buf) (input : Span) :
    Span × POut parse_authority_result_t :=
  let Rj := parse_authority_run s input
  (⟨Rj.2, input.e⟩, .ok Rj.1)

/-! ## Path -/

/-- Result of parse_path. -/
structure parse_path_result_t where
  directory : Span
  file : Span
  base : Span
  extension : Span
  directory_separator : Char
  extension_separator : Char
deriving Repr, DecidableEq

/-- Directory iteration `*(-dirsep >> dirstr >> &dirsep)`: each round optionally
consumes a separator, runs non-separator bytes, and requires a lookahead separator;
a failed round rewinds to the round's start and ends the star. -/
def dirLoop (s : Buf) (e : Nat) (sep : Char) : Nat → Nat → Nat
  | 0, i => i
  | fuel+1, i =>
    let i1 := if atCh s e i sep then i+1 else i
    let d := runWhile s e (fun c => !(c == sep)) i1
    if atCh s e d sep then dirLoop s e sep fuel d else i

/-- Base iteration `*(extsep >> extstr >> &extsep)`: each round consumes an extension
separator and a non-separator run, requiring a lookahead separator. -/
def extLoop (s : Buf) (e : Nat) (sep : Char) : Nat → Nat → Nat
  | 0, i => i
  | fuel+1, i =>
    if atCh s e i sep then
      let x := runWhile s e (fun c => !(c == sep)) (i+1)
      if atCh s e x sep then extLoop s e sep fuel x else i
    else i

/-- parse_path: directory star, optional bare separator, base, optional extension
(separator plus everything to the end); `file` is derived from base and extension.
Every piece is optional or a star, so the grammar never fails. -/
def parse_path_call (s : Buf) (input : Span) (dsep esep : Char) :
    Span × POut parse_path_result_t :=
  let e := input.e
  let dEnd := dirLoop s e dsep (e + 1 - input.b) input.b
  let p1 := if atCh s e dEnd dsep then dEnd + 1 else dEnd
  let x0 := runWhile s e (fun c => !(c == esep)) p1
  let bEnd := extLoop s e esep (e + 1 - x0) x0
  let base : Span := ⟨p1, bEnd⟩
  let hasExt := atCh s e bEnd esep
  let rEnd := runWhile s e (fun _ => true) (bEnd+1)
  let ext : Span := if hasExt then ⟨bEnd+1, rEnd⟩ else ⟨0, 0⟩
  let fileSp : Span := if ext.isEmpty then base else ⟨base.b, ext.e⟩
  let j := if hasExt then rEnd else bEnd
  (⟨j, e⟩, .ok ⟨⟨input.b, dEnd⟩, fileSp, base, ext, dsep, esep⟩)

/-! ## Composite assemblers -/

/-- Result of parse_request. -/
structure parse_request_result_t where
  raw_request_line : Span
  request_line : parse_request_line_result_t
  uri : parse_uri_result_t
  headers : parse_headers_result_t
deriving Repr, DecidableEq

/-- parse_request: request line, raw line recorded as `span(begin, input.begin() - 1)`,
URI parsed over a copy of the line's uri field (which must be consumed entirely),
then the header block over the remaining input.  The caller's span reflects exactly
the mutations performed before any exception. -/
def parse_request_call (s : Buf) (input : Span) :
    Span × POut parse_request_result_t :=
  match parse_request_line_call s input with
  | (_, .fail) => (input, .fail)
  | (_, .ub) => (input, .ub)
  | (inp1, .ok rl) =>
    match parse_uri_call s rl.uri with
    | (_, .fail) => (inp1, .fail)
    | (_, .ub) => (inp1, .ub)
    | (uriRest, .ok uriR) =>
      if uriRest.isEmpty then
        match parse_headers_call s inp1 with
        | (inp2, .ok hb) => (inp2, .ok ⟨⟨input.b, inp1.b - 1⟩, rl, uriR, hb⟩)
        | (inp2, .fail) => (inp2, .fail)
        | (inp2, .ub) => (inp2, .ub)
      else (inp1, .fail)

/-- Result of parse_response. -/
structure parse_response_result_t where
  raw_response_line : Span
  response_line : parse_response_line_result_t
  headers : parse_headers_result_t
deriving Repr, DecidableEq

/-- parse_response: response line, raw line as `span(begin, input.begin() - 1)`,
then the header block over the remaining input. -/
def parse_response_call (s : Buf) (input : Span) :
    Span × POut parse_response_result_t :=
  match parse_response_line_call s input with
  | (_, .fail) => (input, .fail)
  | (_, .ub) => (input, .ub)
  | (inp1, .ok rl) =>
    match parse_headers_call s inp1 with
    | (inp2, .ok hb) => (inp2, .ok ⟨⟨input.b, inp1.b - 1⟩, rl, hb⟩)
    | (inp2, .fail) => (inp2, .fail)
    | (inp2, .ub) => (inp2, .ub)

/-! ## Concrete claim theorems and counterexamples -/

/-- C1 counterexample: on `"A: 1\r\nB:\r\n"` parse_headers succeeds (the second line's
keyed alternative fires new_header for key `B`, then fails on its empty value; the fired
action is not rolled back), returning a final entry with key `B` and an empty value
list — so an entry with a key but no values does appear in a returned result. -/
theorem c1_counterexample :
    parse_headers_call ("A: 1\r\nB:\r\n".data) ⟨0, 10⟩ =
      (⟨6, 10⟩, .ok ⟨[⟨⟨0, 1⟩, [⟨3, 4⟩]⟩, ⟨⟨6, 7⟩, []⟩], false⟩) ∧
    extract ("A: 1\r\nB:\r\n".data) ⟨6, 7⟩ = "B".data ∧
    extract ("A: 1\r\nB:\r\n".data) ⟨0, 1⟩ = "A".data :=
  ⟨rfl, rfl, rfl⟩

/-- C2 counterexample: parse_path on `"/a/b/archive.tar.gz"` with separators '/' and '.'
returns directory span [0,4) = `"/a/b"`; the final '/' is consumed by the separate
`-omit[dirsep]` outside the raw capture, so directory is not `"/a/b/"` as claimed. -/
theorem c2_counterexample :
    (parse_path_call ("/a/b/archive.tar.gz".data) ⟨0, 19⟩ '/' '.').2 =
      .ok ⟨⟨0, 4⟩, ⟨5, 19⟩, ⟨5, 16⟩, ⟨17, 19⟩, '/', '.'⟩ ∧
    extract ("/a/b/archive.tar.gz".data) ⟨0, 4⟩ = "/a/b".data ∧
    extract ("/a/b/archive.tar.gz".data) ⟨0, 4⟩ ≠ "/a/b/".data :=
  ⟨rfl, rfl, by decide⟩

/-- C2 (amended): parse_path("/a/b/archive.tar.gz", '/', '.') succeeds, consumes the whole
input, and yields directory = "/a/b" (everything up to but excluding the last directory
separator, which is consumed separately), base = "archive.tar", extension = "gz", and
file = "archive.tar.gz" spanning from base's start to extension's end. -/
theorem c2_path_example :
    parse_path_call ("/a/b/archive.tar.gz".data) ⟨0, 19⟩ '/' '.' =
      (⟨19, 19⟩, .ok ⟨⟨0, 4⟩, ⟨5, 19⟩, ⟨5, 16⟩, ⟨17, 19⟩, '/', '.'⟩) ∧
    extract ("/a/b/archive.tar.gz".data) ⟨0, 4⟩ = "/a/b".data ∧
    extract ("/a/b/archive.tar.gz".data) ⟨5, 16⟩ = "archive.tar".data ∧
    extract ("/a/b/archive.tar.gz".data) ⟨17, 19⟩ = "gz".data ∧
    extract ("/a/b/archive.tar.gz".data) ⟨5, 19⟩ = "archive.tar.gz".data :=
  ⟨rfl, rfl, rfl, rfl, rfl⟩

/-- C3 counterexample: parse_request on `"GET / X\r\nA: 1\r\n\r\n"` succeeds, and
raw_request_line is [0,8) = `"GET / X\r"`: the CR of the CRLF terminator is retained
(the code records `span(begin, input.begin() - 1)`, stripping only the final LF), so
raw_request_line is not the request line minus its whole terminator. -/
theorem c3_counterexample :
    (parse_request_call ("GET / X\r\nA: 1\r\n\r\n".data) ⟨0, 17⟩).2 =
      .ok ⟨⟨0, 8⟩, ⟨⟨0, 3⟩, ⟨4, 5⟩, ⟨6, 7⟩⟩,
        ⟨⟨0, 0⟩, ⟨0, 0⟩, ⟨4, 5⟩, ⟨0, 0⟩, ⟨0, 0⟩⟩,
        ⟨[⟨⟨9, 10⟩, [⟨12, 13⟩]⟩], true⟩⟩ ∧
    extract ("GET / X\r\nA: 1\r\n\r\n".data) ⟨0, 8⟩ = "GET / X\r".data ∧
    extract ("GET / X\r\nA: 1\r\n\r\n".data) ⟨0, 8⟩ ≠ "GET / X".data :=
  ⟨rfl, rfl, by decide⟩

/-- C4 counterexample: on `"GET / X\r\nA: 1\r\n\r\n"` parse_request succeeds with
raw_request_line [0,8) and consumed-headers region [9,17); their concatenation has
length 16 but differs from the input's 16-byte prefix (the LF at index 8 was dropped),
so the concatenation does not reconstruct a prefix of the input. -/
theorem c4_counterexample :
    (parse_request_call ("GET / X\r\nA: 1\r\n\r\n".data) ⟨0, 17⟩).1 = ⟨17, 17⟩ ∧
    (match (parse_request_call ("GET / X\r\nA: 1\r\n\r\n".data) ⟨0, 17⟩).2 with
      | .ok R => decide (R.raw_request_line = ⟨0, 8⟩)
      | _ => false) = true ∧
    (parse_request_line_call ("GET / X\r\nA: 1\r\n\r\n".data) ⟨0, 17⟩).1.b = 9 ∧
    (extract ("GET / X\r\nA: 1\r\n\r\n".data) ⟨0, 8⟩ ++
       extract ("GET / X\r\nA: 1\r\n\r\n".data) ⟨9, 17⟩).length = 16 ∧
    extract ("GET / X\r\nA: 1\r\n\r\n".data) ⟨0, 8⟩ ++
       extract ("GET / X\r\nA: 1\r\n\r\n".data) ⟨9, 17⟩ ≠
      List.take 16 ("GET / X\r\nA: 1\r\n\r\n".data) :=
  ⟨rfl, rfl, rfl, rfl, by decide⟩

/-- C5 counterexample: parse_authority on `":p@h"` takes the userinfo branch (the
username word matches zero bytes before the colon), yielding an empty username span
together with the non-empty password span [1,2) = `"p"`. -/
theorem c5_counterexample :
    parse_authority_call (":p@h".data) ⟨0, 4⟩ =
      (⟨4, 4⟩, .ok ⟨⟨0, 0⟩, ⟨1, 2⟩, ⟨3, 4⟩, ⟨0, 0⟩⟩) ∧
    Span.isEmpty ⟨0, 0⟩ = true ∧ Span.isEmpty ⟨1, 2⟩ = false ∧
    extract (":p@h".data) ⟨1, 2⟩ = "p".data :=
  ⟨rfl, rfl, rfl, rfl⟩

/-- C6: evaluating parse_headers at the continuation-first input `" B: 2\r\n"`: the keyed
alternative fails (no colon before the leading space), the continuation alternative
matches the value `"B: 2"` and its push_value action executes
`R.headers.back().value.push_back(..)` on an empty vector — C++ undefined behavior,
modelled as the `ub` outcome — instead of the clean ParseFailure the spec describes. -/
theorem c6_continuation_first_ub :
    parse_headers_call (" B: 2\r\n".data) ⟨0, 7⟩ = (⟨0, 7⟩, POut.ub) :=
  rfl

/-- C7: parse_headers on `"A: 1\r\n B: 2\r\n\r\n"` yields exactly one entry, with key
`"A"` and the two values `"1"` and `"B: 2"` (the continuation line is folded under A and
introduces no new key), and terminated = true because the trailing blank line was
consumed; the whole input is consumed. -/
theorem c7_header_folding :
    parse_headers_call ("A: 1\r\n B: 2\r\n\r\n".data) ⟨0, 15⟩ =
      (⟨15, 15⟩, .ok ⟨[⟨⟨0, 1⟩, [⟨3, 4⟩, ⟨7, 11⟩]⟩], true⟩) ∧
    extract ("A: 1\r\n B: 2\r\n\r\n".data) ⟨0, 1⟩ = "A".data ∧
    extract ("A: 1\r\n B: 2\r\n\r\n".data) ⟨3, 4⟩ = "1".data ∧
    extract ("A: 1\r\n B: 2\r\n\r\n".data) ⟨7, 11⟩ = "B: 2".data :=
  ⟨rfl, rfl, rfl, rfl⟩

/-- C8: parse_authority("user:pass@host:80") yields username = "user",
password = "pass", host = "host", port = "80" (userinfo branch), while
parse_authority("host:80") yields empty username and password, host = "host",
port = "80" (host-only branch after the userinfo branch found no '@' and the
only_host action reset the partially assigned result). -/
theorem c8_authority_disambiguation :
    parse_authority_call ("user:pass@host:80".data) ⟨0, 17⟩ =
      (⟨17, 17⟩, .ok ⟨⟨0, 4⟩, ⟨5, 9⟩, ⟨10, 14⟩, ⟨15, 17⟩⟩) ∧
    extract ("user:pass@host:80".data) ⟨0, 4⟩ = "user".data ∧
    extract ("user:pass@host:80".data) ⟨5, 9⟩ = "pass".data ∧
    extract ("user:pass@host:80".data) ⟨10, 14⟩ = "host".data ∧
    extract ("user:pass@host:80".data) ⟨15, 17⟩ = "80".data ∧
    parse_authority_call ("host:80".data) ⟨0, 7⟩ =
      (⟨7, 7⟩, .ok ⟨⟨0, 0⟩, ⟨0, 0⟩, ⟨0, 4⟩, ⟨5, 7⟩⟩) ∧
    Span.isEmpty ⟨0, 0⟩ = true ∧
    extract ("host:80".data) ⟨0, 4⟩ = "host".data ∧
    extract ("host:80".data) ⟨5, 7⟩ = "80".data :=
  ⟨rfl, rfl, rfl, rfl, rfl, rfl, rfl, rfl, rfl⟩

/-! ## Basic facts about the primitives -/

theorem runWhileF_ge (s : Buf) (e : Nat) (p : Char → Bool) :
    ∀ fuel i, i ≤ runWhileF s e p fuel i := by
  intro fuel
  induction fuel with
  | zero => intro i; exact Nat.le_refl i
  | succ n ih =>
    intro i
    unfold runWhileF
    split
    · split
      · split
        · exact Nat.le_trans (Nat.le_succ i) (ih (i+1))
        · exact Nat.le_refl i
      · exact Nat.le_refl i
    · exact Nat.le_refl i

theorem runWhile_ge (s : Buf) (e : Nat) (p : Char → Bool) (i : Nat) :
    i ≤ runWhile s e p i :=
  runWhileF_ge s e p (e - i) i

theorem atCh_iff (s : Buf) (e i : Nat) (c : Char) :
    atCh s e i c = true ↔ i < e ∧ s[i]? = some c := by
  simp [atCh]

theorem eolAt_bounds (s : Buf) (e i j : Nat) (h : eolAt s e i = some j) :
    i < j ∧ j ≤ e ∧ (s[j - 1]? = some '\n' ∨ s[j - 1]? = some '\r') := by
  unfold eolAt at h
  split at h
  · next hr =>
    rw [atCh_iff] at hr
    split at h
    · next hn =>
      rw [atCh_iff] at hn
      obtain rfl : i + 2 = j := Option.some.inj h
      refine ⟨by omega, by omega, Or.inl ?_⟩
      simpa using hn.2
    · obtain rfl : i + 1 = j := Option.some.inj h
      refine ⟨by omega, by omega, Or.inr ?_⟩
      simpa using hr.2
  · split at h
    · next hn =>
      rw [atCh_iff] at hn
      obtain rfl : i + 1 = j := Option.some.inj h
      refine ⟨by omega, by omega, Or.inl ?_⟩
      simpa using hn.2
    · exact absurd h (by simp)

theorem eolOrEoi_cases (s : Buf) (e i j : Nat) (h : eolOrEoi s e i = some j) :
    eolAt s e i = some j ∨ (j = i ∧ i = e) := by
  unfold eolOrEoi at h
  split at h
  · rename_i k hk
    exact Or.inl (hk.trans (congrArg some (Option.some.inj h)))
  · split at h
    · rename_i hbe
      exact Or.inr ⟨(Option.some.inj h).symm, by simpa using hbe⟩
    · exact absurd h (by simp)

theorem eolOrEoi_bounds (s : Buf) (e i j : Nat) (h : eolOrEoi s e i = some j) :
    i ≤ j ∧ j ≤ e := by
  rcases eolOrEoi_cases s e i j h with he | ⟨rfl, rfl⟩
  · have := eolAt_bounds s e i j he
    exact ⟨Nat.le_of_lt this.1, this.2.1⟩
  · exact ⟨Nat.le_refl _, Nat.le_refl _⟩

/-! ## Authority: totality, the empty non-consuming match, and the password invariant -/

theorem parse_authority_run_shape (s : Buf) (inp : Span) :
    parse_authority_call s inp =
      (⟨(parse_authority_run s inp).2, inp.e⟩, .ok (parse_authority_run s inp).1) :=
  rfl

theorem parse_authority_run_nonconsuming (s : Buf) (inp : Span)
    (h : (parse_authority_run s inp).2 = inp.b) :
    (parse_authority_run s inp).1 = ⟨⟨0, 0⟩, ⟨0, 0⟩, ⟨inp.b, inp.b⟩, ⟨0, 0⟩⟩ := by
  simp only [parse_authority_run] at h ⊢
  set uEnd := runWhile s inp.e authChar inp.b with huE
  have gA : inp.b ≤ uEnd := huE ▸ runWhile_ge s inp.e authChar inp.b
  set pw := runWhile s inp.e authChar (uEnd + 1) with hpwE
  have gB : uEnd + 1 ≤ pw := hpwE ▸ runWhile_ge s inp.e authChar (uEnd + 1)
  by_cases hpw : atCh s inp.e uEnd ':' = true
  · simp only [if_pos hpw] at h ⊢
    set hc := runWhile s inp.e authChar (pw + 1) with hcE
    have gC : pw + 1 ≤ hc := hcE ▸ runWhile_ge s inp.e authChar (pw + 1)
    by_cases hbr : atCh s inp.e pw '@' = true
    · simp only [if_pos hbr] at h ⊢
      set hd := runWhile s inp.e authChar (hc + 1) with hdE
      have gD : hc + 1 ≤ hd := hdE ▸ runWhile_ge s inp.e authChar (hc + 1)
      by_cases hport : atCh s inp.e hc ':' = true
      · simp only [if_pos hport] at h; exfalso; omega
      · simp only [if_neg hport] at h; exfalso; omega
    · simp only [if_neg hbr, if_pos hpw] at h ⊢
      exfalso; omega
  · simp only [if_neg hpw] at h ⊢
    by_cases hbr : atCh s inp.e uEnd '@' = true
    · simp only [if_pos hbr] at h ⊢
      rw [← hpwE] at h ⊢
      set hc := runWhile s inp.e authChar (pw + 1) with hcE
      have gC : pw + 1 ≤ hc := hcE ▸ runWhile_ge s inp.e authChar (pw + 1)
      by_cases hport : atCh s inp.e pw ':' = true
      · simp only [if_pos hport] at h; exfalso; omega
      · simp only [if_neg hport] at h; exfalso; omega
    · simp only [if_neg hbr, if_neg hpw] at h ⊢
      rw [h]

theorem parse_authority_run_password (s : Buf) (inp : Span)
    (hpe : (parse_authority_run s inp).1.password.isEmpty = false) :
    atCh s inp.e (parse_authority_run s inp).1.password.e '@' = true := by
  simp only [parse_authority_run] at hpe ⊢
  set uEnd := runWhile s inp.e authChar inp.b with huE
  set pw := runWhile s inp.e authChar (uEnd + 1) with hpwE
  by_cases hpw : atCh s inp.e uEnd ':' = true
  · simp only [if_pos hpw] at hpe ⊢
    by_cases hbr : atCh s inp.e pw '@' = true
    · simp only [if_pos hbr] at hpe ⊢
      by_cases hport : atCh s inp.e (runWhile s inp.e authChar (pw + 1)) ':' = true
      · simp only [if_pos hport] at hpe ⊢
        exact hbr
      · simp only [if_neg hport] at hpe ⊢
        exact hbr
    · simp only [if_neg hbr, if_pos hpw] at hpe ⊢
      simp [Span.isEmpty] at hpe
  · simp only [if_neg hpw] at hpe ⊢
    by_cases hbr : atCh s inp.e uEnd '@' = true
    · simp only [if_pos hbr] at hpe ⊢
      rw [← hpwE] at hpe ⊢
      by_cases hport : atCh s inp.e pw ':' = true
      · simp only [if_pos hport] at hpe ⊢
        simp [Span.isEmpty] at hpe
      · simp only [if_neg hport] at hpe ⊢
        simp [Span.isEmpty] at hpe
    · simp only [if_neg hbr, if_neg hpw] at hpe ⊢
      simp [Span.isEmpty] at hpe

/-- C9: parse_authority never raises a ParseFailure: for every buffer and input span it
returns an Authority result (never the fail or ub outcome); and when the match consumed
nothing (the post-call span starts where the input did — in particular on empty input),
the result has an empty host and every other field empty as well. -/
theorem c9_authority_total :
    (∀ (s : Buf) (inp : Span),
       (parse_authority_call s inp).2 ≠ POut.fail ∧
         (parse_authority_call s inp).2 ≠ POut.ub)
  ∧ (∀ (s : Buf) (inp out : Span) (R : parse_authority_result_t),
       parse_authority_call s inp = (out, .ok R) → out.b = inp.b →
       (R.username.isEmpty && R.password.isEmpty && R.host.isEmpty && R.port.isEmpty)
         = true) := by
  constructor
  · intro s inp
    rw [parse_authority_run_shape]
    exact ⟨fun hc => POut.noConfusion hc, fun hc => POut.noConfusion hc⟩
  · intro s inp out R h hb
    rw [parse_authority_run_shape] at h
    have h2 : POut.ok (parse_authority_run s inp).1 = POut.ok R := congrArg Prod.snd h
    have hR : (parse_authority_run s inp).1 = R := by injection h2
    have h1 : (⟨(parse_authority_run s inp).2, inp.e⟩ : Span) = out := congrArg Prod.fst h
    have hb2 : (parse_authority_run s inp).2 = inp.b := (congrArg Span.b h1).trans hb
    have h3 := parse_authority_run_nonconsuming s inp hb2
    rw [hR] at h3
    rw [h3]
    simp [Span.isEmpty]

/-- C5 (amended): the password span is non-empty only when the userinfo branch matched:
the byte immediately after the password span is the branch's mandatory '@' (inside the
input span).  The username word may nevertheless have matched zero bytes, so an empty
username span together with a non-empty password span does occur (e.g. ":pass@host"). -/
theorem c5_password_userinfo (s : Buf) (inp out : Span)
    (R : parse_authority_result_t)
    (h : parse_authority_call s inp = (out, .ok R))
    (hpw : R.password.isEmpty = false) :
    atCh s inp.e R.password.e '@' = true := by
  rw [parse_authority_run_shape] at h
  have h2 : POut.ok (parse_authority_run s inp).1 = POut.ok R := congrArg Prod.snd h
  have hR : (parse_authority_run s inp).1 = R := by injection h2
  rw [← hR] at hpw ⊢
  exact parse_authority_run_password s inp hpw

/-! ## Header block: the all-but-last values invariant (C1) -/




theorem push_value_ok (hs hs2 : List parse_headers_header_t) (v : Span)
    (h : push_value hs v = .ok hs2) : hs2 = appendToLast hs v := by
  unfold push_value at h
  split at h
  · exact absurd h (by simp)
  · exact (POut.ok.inj h).symm

theorem push_value_ne_fail (hs : List parse_headers_header_t) (v : Span) :
    push_value hs v ≠ POut.fail := by
  unfold push_value
  split <;> simp

theorem push_value_concat (hs : List parse_headers_header_t)
    (x : parse_headers_header_t) (v : Span) :
    push_value (hs ++ [x]) v = .ok (appendToLast (hs ++ [x]) v) := by
  cases hs <;> rfl

theorem appendToLast_sound (hs : List parse_headers_header_t) (v : Span)
    (hinit : ∀ hd ∈ hs.dropLast, hd.value ≠ []) :
    ∀ hd ∈ appendToLast hs v, hd.value ≠ [] := by
  induction hs with
  | nil => intro hd hmem; simp [appendToLast] at hmem
  | cons h t ih =>
    cases t with
    | nil =>
      intro hd hmem
      simp only [appendToLast, List.mem_singleton] at hmem
      subst hmem
      simp
    | cons h2 t2 =>
      intro hd hmem
      simp only [appendToLast] at hmem
      rcases List.mem_cons.mp hmem with rfl | hmem2
      · exact hinit hd (by simp [List.dropLast])
      · refine ih ?_ hd hmem2
        intro hd2 hm2
        refine hinit hd2 ?_
        simp only [List.dropLast]
        exact List.mem_cons_of_mem h hm2

theorem contLine_inv (s : Buf) (e : Nat) (hs hs' : List parse_headers_header_t)
    (i : Nat) (r : POut Nat)
    (hinit : ∀ hd ∈ hs.dropLast, hd.value ≠ [])
    (h : contLine s e hs i = (hs', r)) :
    (∀ hd ∈ hs'.dropLast, hd.value ≠ []) ∧
      (∀ j, r = POut.ok j → ∀ hd ∈ hs', hd.value ≠ []) := by
  simp only [contLine] at h
  split at h
  · split at h
    · split at h
      · rename_i hs2 hpv
        have h2eq := push_value_ok _ _ _ hpv
        have hfull2 : ∀ hd ∈ hs2, hd.value ≠ [] := by
          rw [h2eq]; exact appendToLast_sound _ _ hinit
        split at h
        · injection h with h1 h2
          subst h1; subst h2
          exact ⟨fun hd hm => hfull2 hd (List.dropLast_subset _ hm),
            fun j _ hd hm => hfull2 hd hm⟩
        · injection h with h1 h2
          subst h1; subst h2
          exact ⟨fun hd hm => hfull2 hd (List.dropLast_subset _ hm),
            fun j hj => absurd hj (by simp)⟩
      · rename_i hpv
        injection h with h1 h2
        subst h1; subst h2
        exact ⟨hinit, fun j hj => absurd hj (by simp)⟩
    · injection h with h1 h2
      subst h1; subst h2
      exact ⟨hinit, fun j hj => absurd hj (by simp)⟩
  · injection h with h1 h2
    subst h1; subst h2
    exact ⟨hinit, fun j hj => absurd hj (by simp)⟩


theorem headerLine_inv (s : Buf) (e : Nat) (hs hs' : List parse_headers_header_t)
    (i : Nat) (r : POut Nat)
    (hfull : ∀ hd ∈ hs, hd.value ≠ [])
    (h : headerLine s e hs i = (hs', r)) :
    (∀ hd ∈ hs'.dropLast, hd.value ≠ []) ∧
      (∀ j, r = POut.ok j → ∀ hd ∈ hs', hd.value ≠ []) := by
  have hinit : ∀ hd ∈ hs.dropLast, hd.value ≠ [] :=
    fun hd hm => hfull hd (List.dropLast_subset _ hm)
  simp only [headerLine] at h
  split at h
  · have hinit1 : ∀ hd ∈ (hs ++ [(⟨⟨i, runWhile s e keyChar i⟩, []⟩ : parse_headers_header_t)]).dropLast,
        hd.value ≠ [] := by
      rw [List.dropLast_concat]
      exact hfull
    split at h
    · split at h
      · rename_i hs2 hpv
        have h2eq := push_value_ok _ _ _ hpv
        have hfull2 : ∀ hd ∈ hs2, hd.value ≠ [] := by
          rw [h2eq]; exact appendToLast_sound _ _ hinit1
        split at h
        · injection h with h1 h2
          subst h1; subst h2
          exact ⟨fun hd hm => hfull2 hd (List.dropLast_subset _ hm),
            fun j _ hd hm => hfull2 hd hm⟩
        · exact contLine_inv s e hs2 hs' i r
            (fun hd hm => hfull2 hd (List.dropLast_subset _ hm)) h
      · rename_i hpv
        injection h with h1 h2
        subst h1; subst h2
        exact ⟨hinit1, fun j hj => absurd hj (by simp)⟩
    · exact contLine_inv s e _ hs' i r hinit1 h
  · exact contLine_inv s e hs hs' i r hinit h

theorem headersLoop_inv (s : Buf) (e : Nat) :
    ∀ (fuel : Nat) (hs hs' : List parse_headers_header_t) (i i' : Nat) (u : Bool),
      (∀ hd ∈ hs, hd.value ≠ []) →
      headersLoop s e fuel hs i = (hs', i', u) →
      ∀ hd ∈ hs'.dropLast, hd.value ≠ [] := by
  intro fuel
  induction fuel with
  | zero =>
    intro hs hs' i i' u hfull h
    simp only [headersLoop] at h
    injection h with h1 h2
    subst h1
    exact fun hd hm => hfull hd (List.dropLast_subset _ hm)
  | succ n ih =>
    intro hs hs' i i' u hfull h
    simp only [headersLoop] at h
    split at h
    · rename_i hs2 j hline
      exact ih hs2 hs' j i' u
        ((headerLine_inv s e hs hs2 i (POut.ok j) hfull hline).2 j rfl) h
    · rename_i hs2 hline
      injection h with h1 h2
      subst h1
      exact (headerLine_inv s e hs hs2 i POut.fail hfull hline).1
    · rename_i hs2 hline
      injection h with h1 h2
      subst h1
      exact (headerLine_inv s e hs hs2 i POut.ub hfull hline).1

theorem parse_headers_run_nonempty (s : Buf) (inp : Span)
    (R : parse_headers_result_t) (j : Nat)
    (h : parse_headers_run s inp = .ok (R, j)) :
    ∀ hd ∈ R.headers.dropLast, hd.value ≠ [] := by
  simp only [parse_headers_run] at h
  split at h
  · exact absurd h (by simp)
  · exact absurd h (by simp)
  · rename_i hs1 j1 hline
    have hfull1 : ∀ hd ∈ hs1, hd.value ≠ [] :=
      (headerLine_inv s inp.e [] hs1 inp.b (POut.ok j1) (by simp) hline).2 j1 rfl
    split at h
    · exact absurd h (by simp)
    · rename_i hs i hloop
      have hP := headersLoop_inv s inp.e (inp.e + 1 - j1) hs1 hs j1 i false hfull1 hloop
      split at h
      · injection h with h1
        injection h1 with h2 h3
        subst h2
        exact hP
      · injection h with h1
        injection h1 with h2 h3
        subst h2
        exact hP

/-- C1 (amended): for every input on which parse_headers succeeds, every HeaderEntry in
the returned HeaderBlock except possibly the last has a non-empty values sequence.  (An
empty-valued final entry can be left behind when a keyed line's new_header action fires
and the line then fails on an empty value, as in "A: 1\r\nB:\r\n".) -/
theorem c1_values_nonempty (s : Buf) (inp out : Span) (R : parse_headers_result_t)
    (h : parse_headers_call s inp = (out, POut.ok R)) :
    R.headers.dropLast.all (fun hd => !hd.value.isEmpty) = true := by
  unfold parse_headers_call at h
  split at h
  · rename_i R0 j hrun
    injection h with h1 h2
    injection h2 with h3
    subst h3
    have hP := parse_headers_run_nonempty s inp R0 j hrun
    rw [List.all_eq_true]
    intro hd hm
    simpa using hP hd hm
  · injection h with h1 h2
    exact absurd h2 (by simp)
  · injection h with h1 h2
    exact absurd h2 (by simp)

/-- Witness for c1_values_nonempty: a concrete successful parse. -/
theorem c1_values_nonempty_witness :
    ([⟨⟨0, 1⟩, [⟨3, 4⟩]⟩] : List parse_headers_header_t).dropLast.all
      (fun hd => !hd.value.isEmpty) = true :=
  c1_values_nonempty ("A: 1\r\n".data) ⟨0, 6⟩ ⟨6, 6⟩ ⟨[⟨⟨0, 1⟩, [⟨3, 4⟩]⟩], false⟩ rfl

/-- Witness for c5_password_userinfo at ":p@h". -/
theorem c5_password_userinfo_witness :
    atCh (":p@h".data) 4 2 '@' = true :=
  c5_password_userinfo (":p@h".data) ⟨0, 4⟩ ⟨4, 4⟩ ⟨⟨0, 0⟩, ⟨1, 2⟩, ⟨3, 4⟩, ⟨0, 0⟩⟩
    rfl rfl

/-- Witness for the hypothesis-bearing part of c9_authority_total: the empty input. -/
theorem c9_authority_total_witness :
    (Span.isEmpty ⟨0, 0⟩ && Span.isEmpty ⟨0, 0⟩ && Span.isEmpty ⟨0, 0⟩ &&
      Span.isEmpty ⟨0, 0⟩) = true :=
  c9_authority_total.2 ("".data) ⟨0, 0⟩ ⟨0, 0⟩ ⟨⟨0, 0⟩, ⟨0, 0⟩, ⟨0, 0⟩, ⟨0, 0⟩⟩ rfl rfl

/-! ## Position bounds for the line and header grammars -/

theorem contLine_pos (s : Buf) (e : Nat) (hs hs' : List parse_headers_header_t)
    (i j : Nat) (h : contLine s e hs i = (hs', POut.ok j)) :
    i < j ∧ j ≤ e := by
  simp only [contLine] at h
  split at h
  · rename_i hw
    split at h
    · rename_i hv
      split at h
      · split at h
        · rename_i j2 heol
          injection h with h1 h2
          injection h2 with h3
          subst h3
          have hb := eolOrEoi_bounds s e _ _ heol
          omega
        · injection h with h1 h2
          exact absurd h2 (by simp)
      · injection h with h1 h2
        exact absurd h2 (by simp)
    · injection h with h1 h2
      exact absurd h2 (by simp)
  · injection h with h1 h2
    exact absurd h2 (by simp)

theorem headerLine_pos (s : Buf) (e : Nat) (hs hs' : List parse_headers_header_t)
    (i j : Nat) (h : headerLine s e hs i = (hs', POut.ok j)) :
    i < j ∧ j ≤ e := by
  simp only [headerLine] at h
  split at h
  · split at h
    · rename_i hv
      split at h
      · split at h
        · rename_i j2 heol
          injection h with h1 h2
          injection h2 with h3
          subst h3
          have hb := eolOrEoi_bounds s e _ _ heol
          have g1 := runWhile_ge s e keyChar i
          have g2 := runWhile_ge s e spChar (runWhile s e keyChar i + 1)
          omega
        · exact contLine_pos s e _ hs' i j h
      · injection h with h1 h2
        exact absurd h2 (by simp)
    · exact contLine_pos s e _ hs' i j h
  · exact contLine_pos s e hs hs' i j h

theorem headersLoop_pos (s : Buf) (e : Nat) :
    ∀ (fuel : Nat) (hs hs' : List parse_headers_header_t) (i i' : Nat) (u : Bool),
      headersLoop s e fuel hs i = (hs', i', u) →
      i ≤ i' ∧ (i' = i ∨ i' ≤ e) := by
  intro fuel
  induction fuel with
  | zero =>
    intro hs hs' i i' u h
    simp only [headersLoop] at h
    injection h with h1 h2
    injection h2 with h3 h4
    subst h3
    exact ⟨Nat.le_refl _, Or.inl rfl⟩
  | succ n ih =>
    intro hs hs' i i' u h
    simp only [headersLoop] at h
    split at h
    · rename_i hs2 j hline
      have h1 := headerLine_pos s e hs hs2 i j hline
      have h2 := ih hs2 hs' j i' u h
      exact ⟨by omega, Or.inr (by omega)⟩
    · rename_i hs2 hline
      injection h with h1 h2
      injection h2 with h3 h4
      subst h3
      exact ⟨Nat.le_refl _, Or.inl rfl⟩
    · rename_i hs2 hline
      injection h with h1 h2
      injection h2 with h3 h4
      subst h3
      exact ⟨Nat.le_refl _, Or.inl rfl⟩

theorem parse_headers_run_pos (s : Buf) (inp : Span) (R : parse_headers_result_t)
    (j : Nat) (h : parse_headers_run s inp = .ok (R, j)) :
    inp.b < j ∧ j ≤ inp.e := by
  simp only [parse_headers_run] at h
  split at h
  · exact absurd h (by simp)
  · exact absurd h (by simp)
  · rename_i hs1 j1 hline
    have h1 := headerLine_pos s inp.e [] hs1 inp.b j1 hline
    split at h
    · exact absurd h (by simp)
    · rename_i hs i hloop
      have h2 := headersLoop_pos s inp.e (inp.e + 1 - j1) hs1 hs j1 i false hloop
      split at h
      · rename_i j2 heol
        injection h with h1a
        injection h1a with h2a h3a
        subst h3a
        have h3 := eolAt_bounds s inp.e _ _ heol
        have g1 := runWhile_ge s inp.e spChar i
        omega
      · injection h with h1a
        injection h1a with h2a h3a
        subst h3a
        omega

theorem parse_headers_call_ok (s : Buf) (inp out : Span)
    (R : parse_headers_result_t)
    (h : parse_headers_call s inp = (out, POut.ok R)) :
    out.e = inp.e ∧ inp.b < out.b ∧ out.b ≤ inp.e := by
  unfold parse_headers_call at h
  split at h
  · rename_i R0 j hrun
    injection h with h1 h2
    subst h1
    have := parse_headers_run_pos s inp R0 j hrun
    exact ⟨rfl, this.1, this.2⟩
  · injection h with h1 h2
    exact absurd h2 (by simp)
  · injection h with h1 h2
    exact absurd h2 (by simp)

theorem parse_request_line_run_ok (s : Buf) (inp : Span)
    (R : parse_request_line_result_t) (j : Nat)
    (h : parse_request_line_run s inp = some (R, j)) :
    inp.b < j ∧ j ≤ inp.e ∧
      ((s[j - 1]? = some '\n' ∨ s[j - 1]? = some '\r') ∨ j = inp.e) := by
  simp only [parse_request_line_run] at h
  split at h
  · rename_i hm
    split at h
    · rename_i hu
      split at h
      · rename_i j2 heol
        injection h with h1
        injection h1 with hR hj
        subst hj
        have g0 := runWhile_ge s inp.e spChar inp.b
        have g1 := runWhile_ge s inp.e spChar (runWhile s inp.e wordChar (runWhile s inp.e spChar inp.b))
        have g2 := runWhile_ge s inp.e spChar
          (runWhile s inp.e wordChar
            (runWhile s inp.e spChar (runWhile s inp.e wordChar (runWhile s inp.e spChar inp.b))))
        have g3 := runWhile_ge s inp.e wordChar
          (runWhile s inp.e spChar
            (runWhile s inp.e wordChar
              (runWhile s inp.e spChar (runWhile s inp.e wordChar (runWhile s inp.e spChar inp.b)))))
        have hple : (runWhile s inp.e spChar
            (runWhile s inp.e wordChar
              (runWhile s inp.e spChar (runWhile s inp.e wordChar (runWhile s inp.e spChar inp.b)))))
            ≤ (if (runWhile s inp.e spChar
                (runWhile s inp.e wordChar
                  (runWhile s inp.e spChar (runWhile s inp.e wordChar (runWhile s inp.e spChar inp.b)))))
                < (runWhile s inp.e wordChar
                  (runWhile s inp.e spChar
                    (runWhile s inp.e wordChar
                      (runWhile s inp.e spChar (runWhile s inp.e wordChar (runWhile s inp.e spChar inp.b))))))
              then (runWhile s inp.e wordChar
                  (runWhile s inp.e spChar
                    (runWhile s inp.e wordChar
                      (runWhile s inp.e spChar (runWhile s inp.e wordChar (runWhile s inp.e spChar inp.b))))))
              else (runWhile s inp.e spChar
                (runWhile s inp.e wordChar
                  (runWhile s inp.e spChar (runWhile s inp.e wordChar (runWhile s inp.e spChar inp.b)))))) := by
          split <;> omega
        rcases eolOrEoi_cases s inp.e _ _ heol with hcase | ⟨rfl, hpe⟩
        · have hb := eolAt_bounds s inp.e _ _ hcase
          exact ⟨by omega, by omega, Or.inl hb.2.2⟩
        · refine ⟨by omega, by omega, Or.inr (by omega)⟩
      · exact absurd h (by simp)
    · exact absurd h (by simp)
  · exact absurd h (by simp)


theorem parse_response_line_run_ok (s : Buf) (inp : Span)
    (R : parse_response_line_result_t) (j : Nat)
    (h : parse_response_line_run s inp = some (R, j)) :
    inp.b < j ∧ j ≤ inp.e ∧
      ((s[j - 1]? = some '\n' ∨ s[j - 1]? = some '\r') ∨ j = inp.e) := by
  simp only [parse_response_line_run] at h
  split at h
  · rename_i hm
    split at h
    · rename_i hu
      split at h
      · rename_i j2 heol
        injection h with h1
        injection h1 with hR hj
        subst hj
        have g0 := runWhile_ge s inp.e spChar inp.b
        have g1 := runWhile_ge s inp.e spChar
          (runWhile s inp.e wordChar (runWhile s inp.e spChar inp.b))
        have g2 := runWhile_ge s inp.e spChar
          (runWhile s inp.e wordChar
            (runWhile s inp.e spChar (runWhile s inp.e wordChar (runWhile s inp.e spChar inp.b))))
        have g3 := runWhile_ge s inp.e valueChar
          (runWhile s inp.e spChar
            (runWhile s inp.e wordChar
              (runWhile s inp.e spChar (runWhile s inp.e wordChar (runWhile s inp.e spChar inp.b)))))
        rcases eolOrEoi_cases s inp.e _ _ heol with hcase | ⟨rfl, hpe⟩
        · have hb := eolAt_bounds s inp.e _ _ hcase
          exact ⟨by omega, by omega, Or.inl hb.2.2⟩
        · exact ⟨by omega, by omega, Or.inr (by omega)⟩
      · exact absurd h (by simp)
    · exact absurd h (by simp)
  · exact absurd h (by simp)

theorem parse_request_line_call_ok (s : Buf) (inp sp : Span)
    (R : parse_request_line_result_t)
    (h : parse_request_line_call s inp = (sp, POut.ok R)) :
    sp.e = inp.e ∧ inp.b < sp.b ∧ sp.b ≤ inp.e ∧
      ((s[sp.b - 1]? = some '\n' ∨ s[sp.b - 1]? = some '\r') ∨ sp.b = inp.e) := by
  unfold parse_request_line_call at h
  split at h
  · rename_i R0 j hrun
    injection h with h1 h2
    subst h1
    injection h2 with h3
    subst h3
    have hk := parse_request_line_run_ok s inp R0 j hrun
    exact ⟨rfl, hk.1, hk.2.1, hk.2.2⟩
  · injection h with h1 h2
    exact absurd h2 (by simp)

theorem parse_response_line_call_ok (s : Buf) (inp sp : Span)
    (R : parse_response_line_result_t)
    (h : parse_response_line_call s inp = (sp, POut.ok R)) :
    sp.e = inp.e ∧ inp.b < sp.b ∧ sp.b ≤ inp.e ∧
      ((s[sp.b - 1]? = some '\n' ∨ s[sp.b - 1]? = some '\r') ∨ sp.b = inp.e) := by
  unfold parse_response_line_call at h
  split at h
  · rename_i R0 j hrun
    injection h with h1 h2
    subst h1
    injection h2 with h3
    subst h3
    have hk := parse_response_line_run_ok s inp R0 j hrun
    exact ⟨rfl, hk.1, hk.2.1, hk.2.2⟩
  · injection h with h1 h2
    exact absurd h2 (by simp)

theorem parse_request_anatomy (s : Buf) (inp out : Span)
    (R : parse_request_result_t)
    (h : parse_request_call s inp = (out, POut.ok R)) :
    (parse_request_line_call s inp).2 = POut.ok R.request_line ∧
    R.raw_request_line = ⟨inp.b, (parse_request_line_call s inp).1.b - 1⟩ ∧
    parse_headers_call s ⟨(parse_request_line_call s inp).1.b, inp.e⟩ =
      (out, POut.ok R.headers) ∧
    inp.b < (parse_request_line_call s inp).1.b ∧
    (parse_request_line_call s inp).1.b < out.b ∧
    out.b ≤ inp.e ∧ out.e = inp.e ∧
    (s[(parse_request_line_call s inp).1.b - 1]? = some '\n' ∨
      s[(parse_request_line_call s inp).1.b - 1]? = some '\r') := by
  unfold parse_request_call at h
  split at h
  · injection h with h1 h2
    exact absurd h2 (by simp)
  · injection h with h1 h2
    exact absurd h2 (by simp)
  · rename_i inp1 rl hrl
    have hl := parse_request_line_call_ok s inp inp1 rl hrl
    obtain ⟨inp1b, inp1e⟩ := inp1
    have he : inp1e = inp.e := hl.1
    subst he
    split at h
    · injection h with h1 h2
      exact absurd h2 (by simp)
    · injection h with h1 h2
      exact absurd h2 (by simp)
    · rename_i uriRest uriR huri
      split at h
      · split at h
        · rename_i inp2 hb hh
          injection h with h1 h2
          subst h1
          injection h2 with h3
          subst h3
          have hhok := parse_headers_call_ok s ⟨inp1b, inp.e⟩ _ hb hh
          rw [hrl]
          refine ⟨rfl, rfl, hh, hl.2.1, hhok.2.1, hhok.2.2, hhok.1, ?_⟩
          rcases hl.2.2.2 with hbyte | hend
          · exact hbyte
          · exfalso
            have h5 := hhok.2.1
            have h6 := hhok.2.2
            omega
        · injection h with h1 h2
          exact absurd h2 (by simp)
        · injection h with h1 h2
          exact absurd h2 (by simp)
      · injection h with h1 h2
        exact absurd h2 (by simp)

theorem parse_response_anatomy (s : Buf) (inp out : Span)
    (R : parse_response_result_t)
    (h : parse_response_call s inp = (out, POut.ok R)) :
    (parse_response_line_call s inp).2 = POut.ok R.response_line ∧
    R.raw_response_line = ⟨inp.b, (parse_response_line_call s inp).1.b - 1⟩ ∧
    parse_headers_call s ⟨(parse_response_line_call s inp).1.b, inp.e⟩ =
      (out, POut.ok R.headers) ∧
    inp.b < (parse_response_line_call s inp).1.b ∧
    (parse_response_line_call s inp).1.b < out.b ∧
    out.b ≤ inp.e ∧ out.e = inp.e ∧
    (s[(parse_response_line_call s inp).1.b - 1]? = some '\n' ∨
      s[(parse_response_line_call s inp).1.b - 1]? = some '\r') := by
  unfold parse_response_call at h
  split at h
  · injection h with h1 h2
    exact absurd h2 (by simp)
  · injection h with h1 h2
    exact absurd h2 (by simp)
  · rename_i inp1 rl hrl
    have hl := parse_response_line_call_ok s inp inp1 rl hrl
    obtain ⟨inp1b, inp1e⟩ := inp1
    have he : inp1e = inp.e := hl.1
    subst he
    split at h
    · rename_i inp2 hb hh
      injection h with h1 h2
      subst h1
      injection h2 with h3
      subst h3
      have hhok := parse_headers_call_ok s ⟨inp1b, inp.e⟩ _ hb hh
      rw [hrl]
      refine ⟨rfl, rfl, hh, hl.2.1, hhok.2.1, hhok.2.2, hhok.1, ?_⟩
      rcases hl.2.2.2 with hbyte | hend
      · exact hbyte
      · exfalso
        have h5 := hhok.2.1
        have h6 := hhok.2.2
        omega
    · injection h with h1 h2
      exact absurd h2 (by simp)
    · injection h with h1 h2
      exact absurd h2 (by simp)

/-! ## Span concatenation -/

theorem extract_glue (s : Buf) (b m n : Nat) (h1 : b ≤ m) (h2 : m ≤ n) :
    extract s ⟨b, m⟩ ++ extract s ⟨m, n⟩ = extract s ⟨b, n⟩ := by
  show (s.take m).drop b ++ (s.take n).drop m = (s.take n).drop b
  rw [List.drop_take, List.drop_take, List.drop_take]
  have hm : List.drop m s = List.drop (m - b) (List.drop b s) := by
    rw [List.drop_drop]
    congr 1
    omega
  rw [hm, ← List.take_add]
  congr 1
  omega


/-- C3 (amended): for every successful parse_request, raw_request_line spans from the
start of the input to exactly one byte before the position at which the request-line
parse left the cursor; the single excluded byte is the final byte of the consumed line
terminator (an LF, or the CR of a lone-CR terminator), so for a CRLF terminator the CR
byte remains inside raw_request_line.  A terminator-absent line cannot occur in a
successful parse_request: the header block would then receive empty input and fail.
The analogous facts hold for raw_response_line in parse_response. -/
theorem c3_raw_line :
    (∀ (s : Buf) (inp out : Span) (R : parse_request_result_t),
      parse_request_call s inp = (out, POut.ok R) →
      (parse_request_line_call s inp).2 = POut.ok R.request_line ∧
      R.raw_request_line = ⟨inp.b, (parse_request_line_call s inp).1.b - 1⟩ ∧
      inp.b < (parse_request_line_call s inp).1.b ∧
      (s[(parse_request_line_call s inp).1.b - 1]? = some '\n' ∨
        s[(parse_request_line_call s inp).1.b - 1]? = some '\r'))
  ∧ (∀ (s : Buf) (inp out : Span) (R : parse_response_result_t),
      parse_response_call s inp = (out, POut.ok R) →
      (parse_response_line_call s inp).2 = POut.ok R.response_line ∧
      R.raw_response_line = ⟨inp.b, (parse_response_line_call s inp).1.b - 1⟩ ∧
      inp.b < (parse_response_line_call s inp).1.b ∧
      (s[(parse_response_line_call s inp).1.b - 1]? = some '\n' ∨
        s[(parse_response_line_call s inp).1.b - 1]? = some '\r')) := by
  constructor
  · intro s inp out R h
    obtain ⟨a1, a2, a3, a4, a5, a6, a7, a8⟩ := parse_request_anatomy s inp out R h
    exact ⟨a1, a2, a4, a8⟩
  · intro s inp out R h
    obtain ⟨a1, a2, a3, a4, a5, a6, a7, a8⟩ := parse_response_anatomy s inp out R h
    exact ⟨a1, a2, a4, a8⟩

/-- Witness for c3_raw_line: the concrete request "GET / X\r\nA: 1\r\n\r\n". -/
theorem c3_raw_line_witness :
    (parse_request_line_call ("GET / X\r\nA: 1\r\n\r\n".data) ⟨0, 17⟩).2 =
      POut.ok (⟨⟨0, 3⟩, ⟨4, 5⟩, ⟨6, 7⟩⟩ : parse_request_line_result_t) ∧
    (⟨0, 8⟩ : Span) =
      ⟨0, (parse_request_line_call ("GET / X\r\nA: 1\r\n\r\n".data) ⟨0, 17⟩).1.b - 1⟩ ∧
    0 < (parse_request_line_call ("GET / X\r\nA: 1\r\n\r\n".data) ⟨0, 17⟩).1.b ∧
    (("GET / X\r\nA: 1\r\n\r\n".data)[(parse_request_line_call
        ("GET / X\r\nA: 1\r\n\r\n".data) ⟨0, 17⟩).1.b - 1]? = some '\n' ∨
      ("GET / X\r\nA: 1\r\n\r\n".data)[(parse_request_line_call
        ("GET / X\r\nA: 1\r\n\r\n".data) ⟨0, 17⟩).1.b - 1]? = some '\r') :=
  c3_raw_line.1 ("GET / X\r\nA: 1\r\n\r\n".data) ⟨0, 17⟩ ⟨17, 17⟩
    ⟨⟨0, 8⟩, ⟨⟨0, 3⟩, ⟨4, 5⟩, ⟨6, 7⟩⟩, ⟨⟨0, 0⟩, ⟨0, 0⟩, ⟨4, 5⟩, ⟨0, 0⟩, ⟨0, 0⟩⟩,
      ⟨[⟨⟨9, 10⟩, [⟨12, 13⟩]⟩], true⟩⟩ rfl

/-- C4 (amended): for every successful parse_request, concatenating raw_request_line,
the single dropped line-terminator byte, and the region consumed by the header block
reconstructs exactly the consumed prefix of the input span; that consumed region is a
prefix of the input span, witnessed by concatenation with the unconsumed remainder.
Analogously for parse_response. -/
theorem c4_roundtrip :
    (∀ (s : Buf) (inp out : Span) (R : parse_request_result_t),
      parse_request_call s inp = (out, POut.ok R) →
      extract s R.raw_request_line ++
        extract s ⟨R.raw_request_line.e, R.raw_request_line.e + 1⟩ ++
        extract s ⟨(parse_request_line_call s inp).1.b, out.b⟩ =
        extract s ⟨inp.b, out.b⟩ ∧
      extract s ⟨inp.b, out.b⟩ ++ extract s ⟨out.b, inp.e⟩ = extract s inp)
  ∧ (∀ (s : Buf) (inp out : Span) (R : parse_response_result_t),
      parse_response_call s inp = (out, POut.ok R) →
      extract s R.raw_response_line ++
        extract s ⟨R.raw_response_line.e, R.raw_response_line.e + 1⟩ ++
        extract s ⟨(parse_response_line_call s inp).1.b, out.b⟩ =
        extract s ⟨inp.b, out.b⟩ ∧
      extract s ⟨inp.b, out.b⟩ ++ extract s ⟨out.b, inp.e⟩ = extract s inp) := by
  constructor
  · intro s inp out R h
    obtain ⟨a1, a2, a3, a4, a5, a6, a7, a8⟩ := parse_request_anatomy s inp out R h
    constructor
    · rw [a2]
      show extract s ⟨inp.b, (parse_request_line_call s inp).1.b - 1⟩ ++
          extract s ⟨(parse_request_line_call s inp).1.b - 1,
            (parse_request_line_call s inp).1.b - 1 + 1⟩ ++
          extract s ⟨(parse_request_line_call s inp).1.b, out.b⟩ =
          extract s ⟨inp.b, out.b⟩
      have hj : (parse_request_line_call s inp).1.b - 1 + 1 =
          (parse_request_line_call s inp).1.b := by omega
      rw [hj]
      rw [extract_glue s inp.b ((parse_request_line_call s inp).1.b - 1)
        ((parse_request_line_call s inp).1.b) (by omega) (by omega)]
      exact extract_glue s inp.b ((parse_request_line_call s inp).1.b) out.b
        (by omega) (by omega)
    · exact extract_glue s inp.b out.b inp.e (by omega) (by omega)
  · intro s inp out R h
    obtain ⟨a1, a2, a3, a4, a5, a6, a7, a8⟩ := parse_response_anatomy s inp out R h
    constructor
    · rw [a2]
      show extract s ⟨inp.b, (parse_response_line_call s inp).1.b - 1⟩ ++
          extract s ⟨(parse_response_line_call s inp).1.b - 1,
            (parse_response_line_call s inp).1.b - 1 + 1⟩ ++
          extract s ⟨(parse_response_line_call s inp).1.b, out.b⟩ =
          extract s ⟨inp.b, out.b⟩
      have hj : (parse_response_line_call s inp).1.b - 1 + 1 =
          (parse_response_line_call s inp).1.b := by omega
      rw [hj]
      rw [extract_glue s inp.b ((parse_response_line_call s inp).1.b - 1)
        ((parse_response_line_call s inp).1.b) (by omega) (by omega)]
      exact extract_glue s inp.b ((parse_response_line_call s inp).1.b) out.b
        (by omega) (by omega)
    · exact extract_glue s inp.b out.b inp.e (by omega) (by omega)

/-- Witness for c4_roundtrip: the concrete request "GET / X\r\nA: 1\r\n\r\n". -/
theorem c4_roundtrip_witness :
    extract ("GET / X\r\nA: 1\r\n\r\n".data) ⟨0, 8⟩ ++
      extract ("GET / X\r\nA: 1\r\n\r\n".data) ⟨8, 8 + 1⟩ ++
      extract ("GET / X\r\nA: 1\r\n\r\n".data)
        ⟨(parse_request_line_call ("GET / X\r\nA: 1\r\n\r\n".data) ⟨0, 17⟩).1.b, 17⟩ =
      extract ("GET / X\r\nA: 1\r\n\r\n".data) ⟨0, 17⟩ ∧
    extract ("GET / X\r\nA: 1\r\n\r\n".data) ⟨0, 17⟩ ++
      extract ("GET / X\r\nA: 1\r\n\r\n".data) ⟨17, 17⟩ =
      extract ("GET / X\r\nA: 1\r\n\r\n".data) ⟨0, 17⟩ :=
  c4_roundtrip.1 ("GET / X\r\nA: 1\r\n\r\n".data) ⟨0, 17⟩ ⟨17, 17⟩
    ⟨⟨0, 8⟩, ⟨⟨0, 3⟩, ⟨4, 5⟩, ⟨6, 7⟩⟩, ⟨⟨0, 0⟩, ⟨0, 0⟩, ⟨4, 5⟩, ⟨0, 0⟩, ⟨0, 0⟩⟩,
      ⟨[⟨⟨9, 10⟩, [⟨12, 13⟩]⟩], true⟩⟩ rfl

/-- C10: for the five primitive grammars — parse_headers, parse_request_line,
parse_response_line, parse_uri, parse_path — a ParseFailure leaves the caller's input
span exactly as it was before the call: the span is reassigned past the consumed
prefix only on success. -/
theorem c10_failure_atomic :
    (∀ (s : Buf) (inp : Span),
      (parse_headers_call s inp).2 = POut.fail → (parse_headers_call s inp).1 = inp)
  ∧ (∀ (s : Buf) (inp : Span),
      (parse_request_line_call s inp).2 = POut.fail →
        (parse_request_line_call s inp).1 = inp)
  ∧ (∀ (s : Buf) (inp : Span),
      (parse_response_line_call s inp).2 = POut.fail →
        (parse_response_line_call s inp).1 = inp)
  ∧ (∀ (s : Buf) (inp : Span),
      (parse_uri_call s inp).2 = POut.fail → (parse_uri_call s inp).1 = inp)
  ∧ (∀ (s : Buf) (inp : Span) (dsep esep : Char),
      (parse_path_call s inp dsep esep).2 = POut.fail →
        (parse_path_call s inp dsep esep).1 = inp) := by
  refine ⟨?_, ?_, ?_, ?_, ?_⟩
  · intro s inp h
    cases hr : parse_headers_run s inp with
    | ok Rj =>
      obtain ⟨R0, j⟩ := Rj
      simp [parse_headers_call, hr] at h
    | fail => simp [parse_headers_call, hr]
    | ub => simp [parse_headers_call, hr] at h
  · intro s inp h
    cases hr : parse_request_line_run s inp with
    | some Rj =>
      obtain ⟨R0, j⟩ := Rj
      simp [parse_request_line_call, hr] at h
    | none => simp [parse_request_line_call, hr]
  · intro s inp h
    cases hr : parse_response_line_run s inp with
    | some Rj =>
      obtain ⟨R0, j⟩ := Rj
      simp [parse_response_line_call, hr] at h
    | none => simp [parse_response_line_call, hr]
  · intro s inp h
    cases hr : parse_uri_run s inp with
    | some Rj =>
      obtain ⟨R0, j⟩ := Rj
      simp [parse_uri_call, hr] at h
    | none => simp [parse_uri_call, hr]
  · intro s inp dsep esep h
    simp [parse_path_call] at h

/-- Witness for c10_failure_atomic: parse_headers fails on empty input and leaves the
span untouched. -/
theorem c10_failure_atomic_witness :
    (parse_headers_call ("".data) ⟨0, 0⟩).1 = ⟨0, 0⟩ :=
  c10_failure_atomic.1 ("".data) ⟨0, 0⟩ rfl

end ParserSuite
